import Mathlib

/-!
Verification development for the language-detector HTTP batch service
(`handlers.go`, `main.go`).  The JSON data model and the handler pipeline are
embedded as pure Lean functions; the CLD2 detector (`Detect_language`, an
external C library) and the `KnownLanguages` table (loaded at startup from
`data/cld_codes.json`) are parameters of the embedding, since both are
external to the handler logic under study.
-/

namespace LangDetect

/-- JSON values, modelling the rapidjson document/container tree.  Object
members keep their textual order; number payloads are irrelevant to the
handler logic and are carried as integers. -/
inductive JValue where
| null
| bool (b : Bool)
| num (n : Int)
| str (s : String)
| arr (elems : List JValue)
| obj (members : List (String × JValue))

/-- First member with the given key, as rapidjson FindMember returns the
first occurrence. -/
def lookupField : List (String × JValue) → String → Option JValue
| [], _ => none
| (k, v) :: rest, key => if k = key then some v else lookupField rest key

/-- Model of rapidjson Container.GetMember: errors (none) when the container
is not an object or the member is absent. -/
def getMember : JValue → String → Option JValue
| JValue.obj ms, key => lookupField ms key
| _, _ => none

/-- Model of rapidjson Container.GetArray: errors (none) when the container
is not an array. -/
def getArray : JValue → Option (List JValue)
| JValue.arr xs => some xs
| _ => none

/-- Model of rapidjson Container.GetString: errors (none, with zero-value
string) when the container is not a string. -/
def getString : JValue → Option String
| JValue.str s => some s
| _ => none

/-- Model of Container.GetType() == rj.TypeNull. -/
def JValue.isNull : JValue → Bool
| JValue.null => true
| _ => false

/-- Go unicode.IsSpace on the code points with the Unicode White_Space
property (plus the Latin-1 cases Go special-cases): this is the separator
predicate of strings.Fields. -/
def goIsSpace (c : Char) : Bool :=
  let n := c.toNat
  (9 ≤ n && n ≤ 13) || n == 32 || n == 0x85 || n == 0xA0 || n == 0x1680 ||
  (0x2000 ≤ n && n ≤ 0x200A) || n == 0x2028 || n == 0x2029 ||
  n == 0x202F || n == 0x205F || n == 0x3000

/-- Split a character list at every space character, keeping the (possibly
empty) chunks between separators. -/
def splitW : List Char → List (List Char)
| [] => [[]]
| c :: cs =>
  match splitW cs with
  | [] => [[]]
  | w :: ws => if goIsSpace c then [] :: w :: ws else (c :: w) :: ws

/-- Maximal runs of non-space characters: empty chunks dropped. -/
def fieldsL (cs : List Char) : List (List Char) :=
  (splitW cs).filter (fun w => !w.isEmpty)

/-- Model of Go strings.Fields: the whitespace-delimited tokens of a
string. -/
def goFields (s : String) : List String :=
  (fieldsL s.data).map (fun w => ⟨w⟩)

/-- handlers.go HasPrefix: whether the word starts with one of the given
strings (strings.HasPrefix). -/
def HasPrefix (word : String) (ps : List String) : Bool :=
  ps.any (fun p => p.data.isPrefixOf word.data)

/-- handlers.go StripExtras: remove mentions and links from text.  Splits on
whitespace, drops tokens starting with "@" or "http", and appends each kept
token followed by a single space to the accumulating result. -/
def StripExtras (text : String) : String :=
  (goFields text).foldl
    (fun result word =>
      if !(HasPrefix word ["@", "http"]) then result ++ word ++ " " else result)
    ""

/-- One entry of the response array: either the per-item error object
written on a missing "text" member, or the success-shaped object with the
detected code and its display name. -/
inductive ItemResult where
| failure (msg : String)
| success (iso6391code : String) (resName : String)
deriving DecidableEq, Repr

/-- The observable outcome of LanguageDetectorHandler on a parsed request
body: the silent no-body return on top-level null, a single top-level error
object with its status, or the batch response with its status. -/
inductive HandlerResult where
| noResponse
| errorResponse (status : Nat) (msg : String)
| batchResponse (status : Nat) (response : List ItemResult)
deriving DecidableEq, Repr

/-- One iteration of the per-item loop of LanguageDetectorHandler
(handlers.go lines 132-176), carried over the accumulator
(response array so far, current respCode).  The errors of GetString and
ArrayAppendContainer are discarded by the Go code: GetString's zero value
"" is used on a non-string text member, and appends always succeed on a
document array. -/
def stepGo (detect : String → String) (known : String → Option String)
    (acc : List ItemResult × Nat) (request : JValue) : List ItemResult × Nat :=
  match getMember request "text" with
  | none => (acc.1 ++ [ItemResult.failure "Missing text key"], 400)
  | some text =>
    let textStr := (getString text).getD ""
    let textStr := StripExtras textStr
    let code := detect textStr
    match known code with
    | some resName => (acc.1 ++ [ItemResult.success code resName], acc.2)
    | none => (acc.1 ++ [ItemResult.success code "Unknown"], 203)

/-- The whole per-item loop: responses start empty, respCode starts at
http.StatusOK. -/
def processBatch (detect : String → String) (known : String → Option String)
    (items : List JValue) : List ItemResult × Nat :=
  items.foldl (stepGo detect known) ([], 200)

/-- handlers.go LanguageDetectorHandler on an already-parsed request body
(GetRequests has checked Content-Type and JSON well-formedness): silent
return on top-level null; 400 error when the "request" member cannot be
obtained; otherwise the loop runs over GetArray's result, whose error is
discarded (nil slice on a non-array member). -/
def LanguageDetectorHandler (detect : String → String)
    (known : String → Option String) (body : JValue) : HandlerResult :=
  if body.isNull then HandlerResult.noResponse
  else
    match getMember body "request" with
    | none =>
      HandlerResult.errorResponse 400 "Unable to parse request - invalid JSON detected"
    | some requestsCt =>
      let requests := (getArray requestsCt).getD []
      let r := processBatch detect known requests
      HandlerResult.batchResponse r.2 r.1

/-- Derived per-item result: what the loop body appends for one request
item, independent of the accumulator. -/
def itemPR (detect : String → String) (known : String → Option String)
    (item : JValue) : ItemResult :=
  match getMember item "text" with
  | none => ItemResult.failure "Missing text key"
  | some text =>
    let code := detect (StripExtras ((getString text).getD ""))
    match known code with
    | some resName => ItemResult.success code resName
    | none => ItemResult.success code "Unknown"

/-- Derived per-item status effect: the value the loop body assigns to
respCode for this item, if any (some 400 on a missing text member, some 203
on a detected code absent from the table, none otherwise). -/
def itemEffect (detect : String → String) (known : String → Option String)
    (item : JValue) : Option Nat :=
  match getMember item "text" with
  | none => some 400
  | some text =>
    match known (detect (StripExtras ((getString text).getD ""))) with
    | some _ => none
    | none => some 203

/-- Last element of a list, or the default when the list is empty. -/
def lastD : List Nat → Nat → Nat
| [], d => d
| x :: xs, _ => lastD xs x

/-- Concatenation of a list of words, each followed by a single space. -/
def glueWords : List String → String
| [] => ""
| w :: ws => w ++ " " ++ glueWords ws

theorem stepGo_eq (detect : String → String) (known : String → Option String)
    (acc : List ItemResult × Nat) (item : JValue) :
    stepGo detect known acc item =
      (acc.1 ++ [itemPR detect known item], (itemEffect detect known item).getD acc.2) := by
  cases hm : getMember item "text" with
  | none => simp [stepGo, itemPR, itemEffect, hm]
  | some t =>
    cases hk : known (detect (StripExtras ((getString t).getD ""))) <;>
      simp [stepGo, itemPR, itemEffect, hm, hk]

theorem foldl_stepGo_fst (detect : String → String) (known : String → Option String) :
    ∀ (items : List JValue) (res : List ItemResult) (c : Nat),
      (items.foldl (stepGo detect known) (res, c)).1 = res ++ items.map (itemPR detect known)
| [], res, c => by simp
| item :: rest, res, c => by
  rw [List.foldl_cons, stepGo_eq]
  rw [foldl_stepGo_fst detect known rest]
  simp

theorem foldl_stepGo_snd (detect : String → String) (known : String → Option String) :
    ∀ (items : List JValue) (res : List ItemResult) (c : Nat),
      (items.foldl (stepGo detect known) (res, c)).2 =
        lastD ((items.map (itemEffect detect known)).filterMap id) c
| [], res, c => by simp [lastD]
| item :: rest, res, c => by
  rw [List.foldl_cons, stepGo_eq]
  cases he : itemEffect detect known item with
  | none =>
    rw [foldl_stepGo_snd detect known rest]
    simp [he]
  | some n =>
    rw [foldl_stepGo_snd detect known rest]
    simp only [List.map_cons, he, List.filterMap_cons, id]
    rfl

theorem processBatch_fst (detect : String → String) (known : String → Option String)
    (items : List JValue) :
    (processBatch detect known items).1 = items.map (itemPR detect known) := by
  rw [processBatch, foldl_stepGo_fst]
  simp

theorem processBatch_snd (detect : String → String) (known : String → Option String)
    (items : List JValue) :
    (processBatch detect known items).2 =
      lastD ((items.map (itemEffect detect known)).filterMap id) 200 := by
  rw [processBatch, foldl_stepGo_snd]

theorem lastD_append_cons (x : Nat) (B : List Nat) :
    ∀ (A : List Nat) (d : Nat), lastD (A ++ x :: B) d = lastD B x
| [], d => rfl
| a :: A, d => by
  rw [List.cons_append, lastD, lastD_append_cons x B A]

theorem lastD_prop (P : Nat → Prop) :
    ∀ (l : List Nat) (d : Nat), (∀ y ∈ l, P y) → P d → P (lastD l d)
| [], _, _, hd => hd
| x :: xs, _, hl, _ =>
  lastD_prop P xs x (fun y hy => hl y (List.mem_cons_of_mem x hy)) (hl x (List.mem_cons_self x xs))

theorem itemEffect_cases (detect : String → String) (known : String → Option String)
    (item : JValue) :
    itemEffect detect known item = none ∨ itemEffect detect known item = some 400 ∨
      itemEffect detect known item = some 203 := by
  cases hm : getMember item "text" with
  | none => simp [itemEffect, hm]
  | some t =>
    cases hk : known (detect (StripExtras ((getString t).getD ""))) <;>
      simp [itemEffect, hm, hk]

theorem isNull_eq_false {body : JValue} (h : body ≠ JValue.null) :
    body.isNull = false := by
  cases body <;> simp_all [JValue.isNull]

theorem sdata_append (a b : String) : (a ++ b).data = a.data ++ b.data := rfl

theorem splitW_ne_nil : ∀ cs : List Char, splitW cs ≠ []
| [] => by simp [splitW]
| c :: cs => by
  rw [splitW]
  cases h : splitW cs with
  | nil => simp
  | cons w ws => cases goIsSpace c <;> simp

theorem splitW_nonspace : ∀ (cs : List Char) (w : List Char), w ∈ splitW cs →
    ∀ c ∈ w, goIsSpace c = false
| [], w, hw => by
  simp only [splitW, List.mem_singleton] at hw
  subst hw
  intro c hc
  exact absurd hc (List.not_mem_nil c)
| a :: cs, w, hw => by
  rw [splitW] at hw
  cases h : splitW cs with
  | nil => exact absurd h (splitW_ne_nil cs)
  | cons w1 ws =>
    rw [h] at hw
    dsimp only at hw
    by_cases hsp : goIsSpace a = true
    · rw [if_pos hsp] at hw
      rcases List.mem_cons.mp hw with h1 | h2
      · subst h1
        intro c hc
        exact absurd hc (List.not_mem_nil c)
      · have hmem : w ∈ splitW cs := by rw [h]; exact h2
        exact splitW_nonspace cs w hmem
    · rw [if_neg hsp] at hw
      have hfa : goIsSpace a = false := by
        cases hb : goIsSpace a
        · rfl
        · exact absurd hb hsp
      rcases List.mem_cons.mp hw with h1 | h2
      · subst h1
        intro c hc
        rcases List.mem_cons.mp hc with rfl | hc2
        · exact hfa
        · have hmem : w1 ∈ splitW cs := by rw [h]; exact List.mem_cons_self w1 ws
          exact splitW_nonspace cs w1 hmem c hc2
      · have hmem : w ∈ splitW cs := by rw [h]; exact List.mem_cons_of_mem w1 h2
        exact splitW_nonspace cs w hmem

theorem fieldsL_nonspace {cs w : List Char} (hw : w ∈ fieldsL cs) :
    w ≠ [] ∧ ∀ c ∈ w, goIsSpace c = false := by
  constructor
  · have hp := List.of_mem_filter hw
    intro he
    subst he
    simp at hp
  · exact splitW_nonspace cs w (List.mem_of_mem_filter hw)

theorem splitW_append_word : ∀ (w rest w2 : List Char) (ws : List (List Char)),
    (∀ c ∈ w, goIsSpace c = false) → splitW rest = w2 :: ws →
    splitW (w ++ rest) = (w ++ w2) :: ws
| [], rest, w2, ws, _, h => by simpa using h
| a :: w, rest, w2, ws, hns, h => by
  rw [List.cons_append, splitW,
    splitW_append_word w rest w2 ws (fun c hc => hns c (List.mem_cons_of_mem a hc)) h]
  simp [hns a (List.mem_cons_self a w)]

theorem fieldsL_cons_word (w rest : List Char) (hne : w ≠ [])
    (hns : ∀ c ∈ w, goIsSpace c = false) :
    fieldsL (w ++ ' ' :: rest) = w :: fieldsL rest := by
  cases h : splitW rest with
  | nil => exact absurd h (splitW_ne_nil rest)
  | cons w2 ws =>
    have hspc : goIsSpace ' ' = true := by decide
    have hsp : splitW (' ' :: rest) = [] :: w2 :: ws := by
      rw [splitW, h, hspc]
      simp
    have hall := splitW_append_word w (' ' :: rest) [] (w2 :: ws) hns hsp
    have hemp : w.isEmpty = false := by
      cases w
      · exact absurd rfl hne
      · rfl
    rw [fieldsL, hall, fieldsL, h]
    simp [List.filter_cons, hemp]

theorem fieldsL_glue : ∀ (K : List String),
    (∀ w ∈ K, w.data ≠ [] ∧ ∀ c ∈ w.data, goIsSpace c = false) →
    fieldsL ((K.map (fun w => w.data ++ [' '])).flatten) = K.map String.data
| [], _ => rfl
| w :: K, h => by
  rw [List.map_cons, List.flatten_cons]
  have hw := h w (List.mem_cons_self w K)
  have hassoc : (w.data ++ [' ']) ++ (K.map (fun u => u.data ++ [' '])).flatten
      = w.data ++ ' ' :: (K.map (fun u => u.data ++ [' '])).flatten := by simp
  rw [hassoc, fieldsL_cons_word w.data _ hw.1 hw.2,
    fieldsL_glue K (fun u hu => h u (List.mem_cons_of_mem w hu)), List.map_cons]

theorem glueWords_data : ∀ (K : List String),
    (glueWords K).data = (K.map (fun w => w.data ++ [' '])).flatten
| [] => rfl
| w :: K => by
  rw [glueWords, sdata_append, sdata_append, glueWords_data K]
  have hsp : (" " : String).data = [' '] := rfl
  rw [hsp]
  simp

theorem goFields_mem {s w : String} (hw : w ∈ goFields s) :
    w.data ≠ [] ∧ ∀ c ∈ w.data, goIsSpace c = false := by
  rcases List.mem_map.mp hw with ⟨l, hl, rfl⟩
  exact fieldsL_nonspace hl

theorem goFields_glueWords (K : List String)
    (h : ∀ w ∈ K, w.data ≠ [] ∧ ∀ c ∈ w.data, goIsSpace c = false) :
    goFields (glueWords K) = K := by
  rw [goFields, glueWords_data, fieldsL_glue K h, List.map_map]
  have hid : ((fun l : List Char => (⟨l⟩ : String)) ∘ String.data) = id :=
    funext fun w => rfl
  rw [hid, List.map_id]

theorem foldl_strip (p : String → Bool) :
    ∀ (l : List String) (acc : String),
      l.foldl (fun result word => if p word then result ++ word ++ " " else result) acc
        = acc ++ glueWords (l.filter p)
| [], acc => by
  apply String.ext
  simp [glueWords, sdata_append]
| w :: l, acc => by
  rw [List.foldl_cons]
  by_cases hp : p w = true
  · rw [if_pos hp, foldl_strip p l (acc ++ w ++ " ")]
    apply String.ext
    simp [sdata_append, List.filter_cons, hp, glueWords]
  · have hp2 : p w = false := by
      cases hb : p w
      · rfl
      · exact absurd hb hp
    rw [if_neg hp, foldl_strip p l acc]
    simp [List.filter_cons, hp2]

theorem StripExtras_eq (s : String) :
    StripExtras s =
      glueWords ((goFields s).filter (fun w => !(HasPrefix w ["@", "http"]))) := by
  rw [StripExtras, foldl_strip]
  apply String.ext
  simp [sdata_append]

theorem filter_self_eq {α : Type} (p : α → Bool) (l : List α) :
    (l.filter p).filter p = l.filter p := by
  rw [List.filter_filter]
  congr 1
  funext a
  rw [Bool.and_self]

theorem lastD_const (v : Nat) : ∀ (l : List Nat) (d : Nat),
    (∀ y ∈ l, y = v) → l ≠ [] → lastD l d = v
| [], _, _, hne => absurd rfl hne
| x :: xs, d, h, _ => by
  rw [lastD]
  cases xs with
  | nil => exact h x (List.mem_cons_self x [])
  | cons a as =>
    exact lastD_const v (a :: as) x
      (fun y hy => h y (List.mem_cons_of_mem x hy)) (List.cons_ne_nil a as)

theorem effect_members (detect : String → String) (known : String → Option String)
    (items : List JValue) (y : Nat)
    (hy : y ∈ (items.map (itemEffect detect known)).filterMap id) :
    y = 400 ∨ y = 203 := by
  rcases List.mem_filterMap.mp hy with ⟨o, ho, hoy⟩
  rcases List.mem_map.mp ho with ⟨item, hitem, rfl⟩
  rcases itemEffect_cases detect known item with h | h | h
  · rw [h] at hoy
    simp at hoy
  · rw [h] at hoy
    simp at hoy
    omega
  · rw [h] at hoy
    simp at hoy
    omega

/-- A fixed detector for concrete counterexamples and witnesses: every text
maps to the code "zz". -/
def dzz : String → String := fun _ => "zz"

/-- A detector for concrete counterexamples that recognises the normalized
text "ok " as English and everything else as "zz". -/
def dok : String → String := fun s => if s = "ok " then "en" else "zz"

/-- A one-entry language code table: only "en" has a display name. -/
def kEn : String → Option String := fun c => if c = "en" then some "English" else none

/-- Request body whose first item lacks a "text" member (a Failure) and whose
second item detects to a code absent from the table (a Degraded result). -/
def c1Body : JValue :=
  JValue.obj [("request", JValue.arr
    [JValue.obj [("nottext", JValue.str "x")], JValue.obj [("text", JValue.str "hi")]])]

/-- Claim C1 counterexample: a batch whose first item is a Failure and whose
second item is Degraded gets overall status 203, not 400 — the Degraded
item's unconditional respCode assignment overwrites the 400 written by the
earlier Failure, so 400 does NOT dominate regardless of position. -/
theorem c1_counterexample :
    LanguageDetectorHandler dzz kEn c1Body =
      HandlerResult.batchResponse 203
        [ItemResult.failure "Missing text key", ItemResult.success "zz" "Unknown"]
    ∧ (203 : Nat) ≠ 400 := by
  constructor
  · decide
  · decide

/-- Claim C1 (amended): the overall status of a batch is decided by the last
status-affecting item — a missing-text Failure writes 400 and a Degraded
item writes 203, each unconditionally — so the status is that of the LAST
Failure-or-Degraded item, and 200 when there is none.  A Failure forces 400
only when no Degraded item occurs later in the batch. -/
theorem c1_amended_status_last_writer (detect : String → String)
    (known : String → Option String) (items : List JValue) :
    (processBatch detect known items).2 =
      lastD ((items.map (itemEffect detect known)).filterMap id) 200 :=
  processBatch_snd detect known items

/-- Request body with one item whose "text" member is present but not a
string. -/
def c2Body : JValue :=
  JValue.obj [("request", JValue.arr [JValue.obj [("text", JValue.bool true)]])]

/-- Claim C2 counterexample: an item whose text member is present but is not
a string does NOT produce the Failure result "Missing text key" — the
GetString error is discarded and the item yields a success-shaped result
(here the Degraded result for code "zz", detected from the zero-value ""). -/
theorem c2_counterexample :
    LanguageDetectorHandler dzz kEn c2Body =
      HandlerResult.batchResponse 203 [ItemResult.success "zz" "Unknown"]
    ∧ ItemResult.success "zz" "Unknown" ≠ ItemResult.failure "Missing text key" := by
  constructor
  · decide
  · decide

/-- Claim C2 (amended): when the text member is present but is not a string,
the GetString error is ignored and the item is processed exactly as if its
text were the empty string (Go's zero value), both in its result and in its
status effect; it does not fail with "Missing text key". -/
theorem c2_amended_nonstring_text (detect : String → String)
    (known : String → Option String) (item t : JValue)
    (hm : getMember item "text" = some t) (hs : getString t = none) :
    itemPR detect known item = itemPR detect known (JValue.obj [("text", JValue.str "")])
    ∧ itemEffect detect known item =
        itemEffect detect known (JValue.obj [("text", JValue.str "")]) := by
  constructor
  · simp only [itemPR, hm, hs, Option.getD_none]
    rfl
  · simp only [itemEffect, hm, hs, Option.getD_none]
    rfl

/-- Witness for the amended C2 at the concrete item with text member true. -/
theorem c2_witness :
    itemPR dzz kEn (JValue.obj [("text", JValue.bool true)]) =
      itemPR dzz kEn (JValue.obj [("text", JValue.str "")]) :=
  (c2_amended_nonstring_text dzz kEn (JValue.obj [("text", JValue.bool true)])
    (JValue.bool true) rfl rfl).1

/-- Request body whose "request" member is present but is a number, not an
array. -/
def c3Body : JValue := JValue.obj [("request", JValue.num 5)]

/-- Claim C3 counterexample: a body whose request member is present but not
an array is NOT answered with the 400 invalid-JSON error: the GetArray error
is discarded, the loop runs over an empty slice, and the handler responds
200 with an empty response array. -/
theorem c3_counterexample :
    LanguageDetectorHandler dzz kEn c3Body = HandlerResult.batchResponse 200 []
    ∧ HandlerResult.batchResponse 200 ([] : List ItemResult) ≠
        HandlerResult.errorResponse 400
          "Unable to parse request - invalid JSON detected" := by
  constructor
  · decide
  · decide

/-- Claim C3 (amended): for non-null bodies, only an absent request member
(including a non-object top level) yields the 400 invalid-JSON error with no
item processed; a request member that is present but not an array instead
yields 200 with an empty response array. -/
theorem c3_amended_request_member (detect : String → String)
    (known : String → Option String) (body : JValue) (h0 : body ≠ JValue.null) :
    (getMember body "request" = none →
      LanguageDetectorHandler detect known body =
        HandlerResult.errorResponse 400
          "Unable to parse request - invalid JSON detected")
    ∧ (∀ rc, getMember body "request" = some rc → getArray rc = none →
        LanguageDetectorHandler detect known body =
          HandlerResult.batchResponse 200 []) := by
  constructor
  · intro hm
    simp [LanguageDetectorHandler, isNull_eq_false h0, hm]
  · intro rc hm ha
    simp [LanguageDetectorHandler, isNull_eq_false h0, hm, ha, processBatch]

/-- Witness for the amended C3: both branches at concrete bodies. -/
theorem c3_witness :
    LanguageDetectorHandler dzz kEn (JValue.obj [("nope", JValue.num 1)]) =
      HandlerResult.errorResponse 400 "Unable to parse request - invalid JSON detected"
    ∧ LanguageDetectorHandler dzz kEn c3Body = HandlerResult.batchResponse 200 [] :=
  ⟨(c3_amended_request_member dzz kEn (JValue.obj [("nope", JValue.num 1)])
      (fun h => JValue.noConfusion h)).1 rfl,
   (c3_amended_request_member dzz kEn c3Body
      (fun h => JValue.noConfusion h)).2 (JValue.num 5) rfl rfl⟩

/-- Claim C4: for every well-formed batch, the response array is the
index-wise image of the request array under the per-item processor — so it
has the same length, result i comes from request i, and each result's
variant is determined solely by its own item. -/
theorem c4_positional (detect : String → String) (known : String → Option String)
    (body rc : JValue) (items : List JValue) (h0 : body ≠ JValue.null)
    (h1 : getMember body "request" = some rc) (h2 : getArray rc = some items) :
    LanguageDetectorHandler detect known body =
      HandlerResult.batchResponse (processBatch detect known items).2
        (items.map (itemPR detect known))
    ∧ (items.map (itemPR detect known)).length = items.length := by
  constructor
  · simp [LanguageDetectorHandler, isNull_eq_false h0, h1, h2, processBatch_fst]
  · simp

/-- Witness for C4 at a concrete three-item batch. -/
theorem c4_witness :
    LanguageDetectorHandler dok kEn
        (JValue.obj [("request", JValue.arr
          [JValue.obj [("text", JValue.str "ok")], JValue.obj [],
           JValue.obj [("text", JValue.str "hi")]])]) =
      HandlerResult.batchResponse
        (processBatch dok kEn
          [JValue.obj [("text", JValue.str "ok")], JValue.obj [],
           JValue.obj [("text", JValue.str "hi")]]).2
        ([JValue.obj [("text", JValue.str "ok")], JValue.obj [],
          JValue.obj [("text", JValue.str "hi")]].map (itemPR dok kEn))
    ∧ ([JValue.obj [("text", JValue.str "ok")], JValue.obj [],
        JValue.obj [("text", JValue.str "hi")]].map (itemPR dok kEn)).length =
      [JValue.obj [("text", JValue.str "ok")], JValue.obj [],
       JValue.obj [("text", JValue.str "hi")]].length :=
  c4_positional dok kEn _ _ _ (fun h => JValue.noConfusion h) rfl rfl

/-- Concrete batch: a Success item, then an item with no text member, then a
Degraded item. -/
def c5Body : JValue :=
  JValue.obj [("request", JValue.arr
    [JValue.obj [("text", JValue.str "ok")], JValue.obj [],
     JValue.obj [("text", JValue.str "hi")]])]

/-- Claim C5 counterexample: a batch containing a missing-text item does
carry the failure object at its position and the other items are still
processed, but the overall status is 203, not 400, because the Degraded item
after the failure overwrites respCode. -/
theorem c5_counterexample :
    LanguageDetectorHandler dok kEn c5Body =
      HandlerResult.batchResponse 203
        [ItemResult.success "en" "English", ItemResult.failure "Missing text key",
         ItemResult.success "zz" "Unknown"]
    ∧ (203 : Nat) ≠ 400 := by
  constructor
  · decide
  · decide

/-- Claim C5 (amended): for a batch with a missing-text item, that position
holds exactly the failure object "Missing text key"; processing never stops
early — every other item, before and after, still yields its own per-item
result; and the overall status is 400 unless a status-affecting item occurs
later (the last one then decides: Failure 400, Degraded 203) — in
particular the status is never 200. -/
theorem c5_amended_partial_failure (detect : String → String)
    (known : String → Option String) (pre post : List JValue) (item : JValue)
    (hm : getMember item "text" = none) :
    (processBatch detect known (pre ++ item :: post)).1 =
      pre.map (itemPR detect known) ++ ItemResult.failure "Missing text key"
        :: post.map (itemPR detect known)
    ∧ (processBatch detect known (pre ++ item :: post)).2 =
        lastD ((post.map (itemEffect detect known)).filterMap id) 400
    ∧ (processBatch detect known (pre ++ item :: post)).2 ≠ 200 := by
  have hfail : itemPR detect known item = ItemResult.failure "Missing text key" := by
    simp [itemPR, hm]
  have heff : itemEffect detect known item = some 400 := by
    simp [itemEffect, hm]
  have hsnd : (processBatch detect known (pre ++ item :: post)).2 =
      lastD ((post.map (itemEffect detect known)).filterMap id) 400 := by
    rw [processBatch_snd, List.map_append, List.map_cons, heff,
      List.filterMap_append, List.filterMap_cons]
    simp only [id]
    rw [lastD_append_cons]
  refine ⟨?_, hsnd, ?_⟩
  · rw [processBatch_fst, List.map_append, List.map_cons, hfail]
  · rw [hsnd]
    have hne : ∀ y ∈ (post.map (itemEffect detect known)).filterMap id, y ≠ 200 := by
      intro y hy
      rcases effect_members detect known post y hy with h | h <;> omega
    exact lastD_prop (fun z => z ≠ 200) _ 400 hne (by omega)

/-- Witness for the amended C5 at the concrete batch of c5Body. -/
theorem c5_witness :
    (processBatch dok kEn ([JValue.obj [("text", JValue.str "ok")]] ++ JValue.obj []
        :: [JValue.obj [("text", JValue.str "hi")]])).1 =
      [JValue.obj [("text", JValue.str "ok")]].map (itemPR dok kEn) ++
        ItemResult.failure "Missing text key"
          :: [JValue.obj [("text", JValue.str "hi")]].map (itemPR dok kEn)
    ∧ (processBatch dok kEn ([JValue.obj [("text", JValue.str "ok")]] ++ JValue.obj []
        :: [JValue.obj [("text", JValue.str "hi")]])).2 =
        lastD (([JValue.obj [("text", JValue.str "hi")]].map
          (itemEffect dok kEn)).filterMap id) 400
    ∧ (processBatch dok kEn ([JValue.obj [("text", JValue.str "ok")]] ++ JValue.obj []
        :: [JValue.obj [("text", JValue.str "hi")]])).2 ≠ 200 :=
  c5_amended_partial_failure dok kEn [JValue.obj [("text", JValue.str "ok")]]
    [JValue.obj [("text", JValue.str "hi")]] (JValue.obj []) rfl

/-- Claim C6: StripExtras splits its input on whitespace into tokens, drops
every token starting with "@" or "http", and rejoins the survivors each
followed by a single space (so separators are single spaces and a trailing
space follows the last token); the given example holds, the empty input
yields "", and so does any input all of whose tokens are excluded. -/
theorem c6_normalize :
    (∀ s, StripExtras s =
       glueWords ((goFields s).filter (fun w => !(HasPrefix w ["@", "http"]))))
    ∧ StripExtras "hello @bob http://x world" = "hello world "
    ∧ StripExtras "" = ""
    ∧ ∀ s, (∀ w ∈ goFields s, HasPrefix w ["@", "http"] = true) →
        StripExtras s = "" := by
  refine ⟨StripExtras_eq, by decide, by decide, ?_⟩
  intro s h
  rw [StripExtras_eq]
  have hnil : (goFields s).filter (fun w => !(HasPrefix w ["@", "http"])) = [] := by
    rw [List.filter_eq_nil_iff]
    intro w hw
    simp [h w hw]
  rw [hnil]
  rfl

/-- Witness for C6 at an input whose tokens are all excluded. -/
theorem c6_witness : StripExtras "@alice http://t.co" = "" :=
  c6_normalize.2.2.2 "@alice http://t.co" (by decide)

/-- Claim C7: normalization is idempotent — StripExtras applied to its own
output returns that output unchanged, for every input string. -/
theorem c7_idempotent (x : String) :
    StripExtras (StripExtras x) = StripExtras x := by
  rw [StripExtras_eq x]
  rw [StripExtras_eq
    (glueWords ((goFields x).filter (fun w => !(HasPrefix w ["@", "http"]))))]
  rw [goFields_glueWords _ (fun w hw => goFields_mem (List.mem_of_mem_filter hw)),
    filter_self_eq]

/-- Claim C8: an item whose detected code is absent from the language table
yields the success-shaped result carrying that code with name "Unknown" (the
item does not fail), and a batch with no missing-text item but at least one
such Degraded item gets overall status 203. -/
theorem c8_unknown_language (detect : String → String)
    (known : String → Option String) :
    (∀ (item t : JValue), getMember item "text" = some t →
       known (detect (StripExtras ((getString t).getD ""))) = none →
       itemPR detect known item =
         ItemResult.success (detect (StripExtras ((getString t).getD ""))) "Unknown")
    ∧ ∀ items : List JValue,
        (∀ item ∈ items, getMember item "text" ≠ none) →
        (∃ item ∈ items, ∃ t, getMember item "text" = some t ∧
          known (detect (StripExtras ((getString t).getD ""))) = none) →
        (processBatch detect known items).2 = 203 := by
  constructor
  · intro item t hm hk
    simp [itemPR, hm, hk]
  · intro items hall hex
    rw [processBatch_snd]
    apply lastD_const
    · intro y hy
      rcases List.mem_filterMap.mp hy with ⟨o, ho, hoy⟩
      rcases List.mem_map.mp ho with ⟨item, hitem, rfl⟩
      cases hmm : getMember item "text" with
      | none => exact absurd hmm (hall item hitem)
      | some t =>
        cases hk : known (detect (StripExtras ((getString t).getD ""))) with
        | none =>
          have he : itemEffect detect known item = some 203 := by
            simp [itemEffect, hmm, hk]
          rw [he] at hoy
          simp at hoy
          omega
        | some nm =>
          have he : itemEffect detect known item = none := by
            simp [itemEffect, hmm, hk]
          rw [he] at hoy
          simp at hoy
    · rcases hex with ⟨item, hitem, t, hmt, hk⟩
      have he : itemEffect detect known item = some 203 := by
        simp [itemEffect, hmt, hk]
      exact List.ne_nil_of_mem (List.mem_filterMap.mpr
        ⟨some 203, List.mem_map.mpr ⟨item, hitem, he⟩, rfl⟩)

/-- Witness for C8 at a one-item batch whose detected code "zz" is not in
the table. -/
theorem c8_witness :
    itemPR dzz kEn (JValue.obj [("text", JValue.str "hi")]) =
      ItemResult.success (dzz (StripExtras ((getString (JValue.str "hi")).getD "")))
        "Unknown"
    ∧ (processBatch dzz kEn [JValue.obj [("text", JValue.str "hi")]]).2 = 203 := by
  constructor
  · exact (c8_unknown_language dzz kEn).1 (JValue.obj [("text", JValue.str "hi")])
      (JValue.str "hi") rfl rfl
  · refine (c8_unknown_language dzz kEn).2 _ ?_ ?_
    · intro item hitem
      rw [List.mem_singleton] at hitem
      subst hitem
      simp [getMember, lookupField]
    · exact ⟨JValue.obj [("text", JValue.str "hi")], List.mem_singleton.mpr rfl,
        JValue.str "hi", rfl, rfl⟩

/-- Claim C9: a parsed request body whose top-level value is JSON null makes
the handler return silently — no response body is written, no error object
is emitted and no batch processing occurs. -/
theorem c9_null_noop (detect : String → String) (known : String → Option String) :
    LanguageDetectorHandler detect known JValue.null = HandlerResult.noResponse := rfl

/-- Claim C10: a valid envelope whose request member is the empty array gets
HTTP 200 with an empty response array, not an error. -/
theorem c10_empty_batch (detect : String → String) (known : String → Option String)
    (body rc : JValue) (h0 : body ≠ JValue.null)
    (h1 : getMember body "request" = some rc) (h2 : getArray rc = some []) :
    LanguageDetectorHandler detect known body = HandlerResult.batchResponse 200 [] := by
  simp [LanguageDetectorHandler, isNull_eq_false h0, h1, h2, processBatch]

/-- Witness for C10 at the concrete body with an empty request array. -/
theorem c10_witness :
    LanguageDetectorHandler dzz kEn (JValue.obj [("request", JValue.arr [])]) =
      HandlerResult.batchResponse 200 [] :=
  c10_empty_batch dzz kEn _ (JValue.arr []) (fun h => JValue.noConfusion h) rfl rfl

end LangDetect
